import Mathlib

/-!
Verification development for the binance-orderbook repository: a collector
that persists Binance depth snapshots into length-prefixed, per-symbol,
per-UTC-day binary log files, and a reader that scans one such file for the
most recent snapshot at or before a target time.

Shallow embedding conventions:
* bytes are `Nat` values (a well-formed stream has every byte `< 256`; the
  little-endian readers reduce each byte `% 256` exactly as the Go
  `encoding/binary` routines act on `uint8` values);
* the 64-bit IEEE-754 fields `price` and `quantity` are carried as their
  64-bit bit patterns (`Nat`), which is exact for serialization and for
  Go map keys on the values used here;
* the signed 64-bit fields `eventTime` and `lastUpdateId` are carried as
  `Int` with two's-complement byte encoding;
* fallible reads return `Except`/`Option`, mirroring Go error returns.
-/

namespace BinanceOrderbook

/-! ## Data model (orderbook.proto: message Level, message Snapshot) -/

/-- One price level: price and quantity as 64-bit float bit patterns. -/
structure Level where
  price : Nat
  quantity : Nat
  deriving DecidableEq, Repr

/-- One depth snapshot record: event time (UTC millis), feed sequence id,
and the two ordered sides. -/
structure Snapshot where
  eventTime : Int
  lastUpdateId : Int
  bids : List Level
  asks : List Level
  deriving DecidableEq, Repr

/-! ## Little-endian byte helpers (Go encoding/binary, little-endian) -/

/-- The `w` little-endian bytes of `n` (low byte first), as written by
Go `binary.LittleEndian.PutUint32` / fixed-width writers. -/
def toLE : Nat → Nat → List Nat
  | 0, _ => []
  | w + 1, n => n % 256 :: toLE w (n / 256)

/-- Read a little-endian byte list back into a `Nat`, reducing each byte
`% 256` as the Go routines do on `uint8` values. -/
def fromLE : List Nat → Nat
  | [] => 0
  | b :: rest => b % 256 + 256 * fromLE rest

theorem toLE_length (w n : Nat) : (toLE w n).length = w := by
  induction w generalizing n with
  | zero => rfl
  | succ w ih => simp [toLE, ih]

theorem fromLE_toLE (w n : Nat) (h : n < 2 ^ (8 * w)) : fromLE (toLE w n) = n := by
  induction w generalizing n with
  | zero =>
    simp only [Nat.mul_zero, pow_zero, Nat.lt_one_iff] at h
    subst h
    rfl
  | succ w ih =>
    have hdiv : n / 256 < 2 ^ (8 * w) := by
      rw [Nat.div_lt_iff_lt_mul (by norm_num)]
      calc n < 2 ^ (8 * (w + 1)) := h
        _ = 2 ^ (8 * w) * 256 := by ring
    simp only [toLE, fromLE, ih _ hdiv]
    omega

/-! ## Signed 64-bit integer codec (two's complement little-endian) -/

/-- Eight little-endian bytes of the two's-complement representation of a
signed 64-bit integer. -/
def encodeInt64 (x : Int) : List Nat := toLE 8 (x % (2 ^ 64 : Int)).toNat

/-- Read eight little-endian bytes back into a signed 64-bit integer. -/
def decodeInt64 (bs : List Nat) : Int :=
  let u : Int := (fromLE bs : Nat)
  if u < 2 ^ 63 then u else u - 2 ^ 64

theorem encodeInt64_length (x : Int) : (encodeInt64 x).length = 8 := toLE_length 8 _

theorem decodeInt64_encodeInt64 (x : Int) (hlo : -(2 ^ 63) ≤ x) (hhi : x < 2 ^ 63) :
    decodeInt64 (encodeInt64 x) = x := by
  have hmod : (x % (2 ^ 64 : Int)) = if 0 ≤ x then x else x + 2 ^ 64 := by
    split <;> omega
  have hnonneg : (0 : Int) ≤ x % (2 ^ 64 : Int) := by omega
  have hlt : (x % (2 ^ 64 : Int)) < 2 ^ 64 := by omega
  have htn : ((x % (2 ^ 64 : Int)).toNat : Int) = x % (2 ^ 64 : Int) :=
    Int.toNat_of_nonneg hnonneg
  have hsz : (x % (2 ^ 64 : Int)).toNat < 2 ^ (8 * 8) := by
    have : ((2 : Int) ^ 64) = ((2 ^ 64 : Nat) : Int) := by norm_num
    omega
  simp only [decodeInt64, encodeInt64, fromLE_toLE 8 _ hsz]
  split <;> omega

/-! ## Snapshot payload codec

Modelled from the spec: the serialized Snapshot payload is produced and
consumed in the source by `proto.Marshal` / `proto.Unmarshal` over the
generated `orderbook` package, which is not part of the repository sources;
the spec fixes the field order (`eventTime` signed 64-bit, `lastUpdateId`
signed 64-bit, `bids` then `asks` as sequences of Level, each Level a
64-bit-float price then quantity) and requires the payload to be
self-describing per frame, leaving the exact byte-level tag scheme open.
Here each sequence carries a 4-byte little-endian count so a payload decodes
with no external state. -/

/-- Read exactly `n` bytes from the front of a stream, or fail. -/
def readBytes (n : Nat) (bs : List Nat) : Option (List Nat × List Nat) :=
  if n ≤ bs.length then some (bs.take n, bs.drop n) else none

theorem readBytes_append (n : Nat) (xs ys : List Nat) (h : xs.length = n) :
    readBytes n (xs ++ ys) = some (xs, ys) := by
  subst h
  simp [readBytes, List.take_left, List.drop_left]

/-- Serialize one Level: price bits then quantity bits, 8 bytes each. -/
def encodeLevel (l : Level) : List Nat := toLE 8 l.price ++ toLE 8 l.quantity

/-- Serialize a Level sequence body, in order. -/
def encodeLevelsBody : List Level → List Nat
  | [] => []
  | l :: ls => encodeLevel l ++ encodeLevelsBody ls

/-- Serialize a Level sequence: 4-byte little-endian count, then the body. -/
def encodeLevels (ls : List Level) : List Nat := toLE 4 ls.length ++ encodeLevelsBody ls

/-- Parse `n` Levels from the front of a stream. -/
def decodeLevels : Nat → List Nat → Option (List Level × List Nat)
  | 0, bs => some ([], bs)
  | n + 1, bs =>
    match readBytes 8 bs with
    | none => none
    | some (pb, bs1) =>
      match readBytes 8 bs1 with
      | none => none
      | some (qb, bs2) =>
        match decodeLevels n bs2 with
        | none => none
        | some (ls, rest) => some ({ price := fromLE pb, quantity := fromLE qb } :: ls, rest)

/-- Bound on the numeric fields of a Level list: every bit pattern fits in
64 bits (always true of real float64 patterns). -/
def LevelsBounded (ls : List Level) : Prop :=
  ∀ l ∈ ls, l.price < 2 ^ 64 ∧ l.quantity < 2 ^ 64

instance (ls : List Level) : Decidable (LevelsBounded ls) := by
  unfold LevelsBounded; infer_instance

theorem decodeLevels_encode (ls : List Level) (rest : List Nat) (hb : LevelsBounded ls) :
    decodeLevels ls.length (encodeLevelsBody ls ++ rest) = some (ls, rest) := by
  induction ls with
  | nil => rfl
  | cons l ls ih =>
    obtain ⟨hp, hq⟩ := hb l (List.mem_cons_self l ls)
    have hb' : LevelsBounded ls := fun m hm => hb m (List.mem_cons_of_mem l hm)
    have h1 : encodeLevelsBody (l :: ls) ++ rest =
        toLE 8 l.price ++ (toLE 8 l.quantity ++ (encodeLevelsBody ls ++ rest)) := by
      simp [encodeLevelsBody, encodeLevel]
    simp only [List.length_cons, decodeLevels, h1,
      readBytes_append 8 _ _ (toLE_length 8 _), ih hb',
      fromLE_toLE 8 l.price (by simpa using hp), fromLE_toLE 8 l.quantity (by simpa using hq)]

/-- Serialize a Snapshot payload: eventTime, lastUpdateId, bids, asks. -/
def encodePayload (s : Snapshot) : List Nat :=
  encodeInt64 s.eventTime ++ encodeInt64 s.lastUpdateId ++
    encodeLevels s.bids ++ encodeLevels s.asks

/-- Parse a Snapshot payload, requiring the whole byte string to be
consumed (the stand-in for proto.Unmarshal failing on anything else). -/
def decodePayload (bs : List Nat) : Option Snapshot :=
  match readBytes 8 bs with
  | none => none
  | some (etb, bs1) =>
    match readBytes 8 bs1 with
    | none => none
    | some (lub, bs2) =>
      match readBytes 4 bs2 with
      | none => none
      | some (nbb, bs3) =>
        match decodeLevels (fromLE nbb) bs3 with
        | none => none
        | some (bids, bs4) =>
          match readBytes 4 bs4 with
          | none => none
          | some (nab, bs5) =>
            match decodeLevels (fromLE nab) bs5 with
            | none => none
            | some (asks, rest) =>
              if rest.isEmpty then
                some { eventTime := decodeInt64 etb, lastUpdateId := decodeInt64 lub,
                       bids := bids, asks := asks }
              else none

/-- Bounds under which a Snapshot is representable on the wire: int64 range
for the two integer fields, 64-bit patterns for every level, and side
lengths below the 32-bit count limit. -/
def SnapshotBounded (s : Snapshot) : Prop :=
  -(2 ^ 63) ≤ s.eventTime ∧ s.eventTime < 2 ^ 63 ∧
    -(2 ^ 63) ≤ s.lastUpdateId ∧ s.lastUpdateId < 2 ^ 63 ∧
    LevelsBounded s.bids ∧ LevelsBounded s.asks ∧
    s.bids.length < 2 ^ 32 ∧ s.asks.length < 2 ^ 32

instance (s : Snapshot) : Decidable (SnapshotBounded s) := by
  unfold SnapshotBounded; infer_instance

theorem decodePayload_encodePayload (s : Snapshot) (h : SnapshotBounded s) :
    decodePayload (encodePayload s) = some s := by
  obtain ⟨h1, h2, h3, h4, hb, ha, hnb, hna⟩ := h
  have e1 : encodePayload s = encodeInt64 s.eventTime ++ (encodeInt64 s.lastUpdateId ++
      (toLE 4 s.bids.length ++ (encodeLevelsBody s.bids ++ (toLE 4 s.asks.length ++
      (encodeLevelsBody s.asks ++ []))))) := by
    simp [encodePayload, encodeLevels]
  have hc : ∀ n : Nat, n < 2 ^ 32 → fromLE (toLE 4 n) = n := fun n hn =>
    fromLE_toLE 4 n (by simpa using hn)
  simp only [decodePayload, e1, readBytes_append 8 _ _ (encodeInt64_length _),
    readBytes_append 4 _ _ (toLE_length 4 _), hc _ hnb, hc _ hna,
    decodeLevels_encode _ _ hb, decodeLevels_encode _ _ ha, List.isEmpty_nil,
    decodeInt64_encodeInt64 _ h1 h2, decodeInt64_encodeInt64 _ h3 h4]
  simp

/-! ## Framing (FileManager.writeSnapshot write side, readNextSnapshot read side) -/

/-- The frame bytes written by FileManager.writeSnapshot in the collector:
a 4-byte little-endian length prefix (uint32, so the length is taken mod
2 ^ 32 by toLE) followed by the payload bytes. -/
def encodeFrame (payload : List Nat) : List Nat := toLE 4 payload.length ++ payload

/-- Concatenate a list of payloads as consecutive frames, the content of a
log file holding those records in write order. -/
def framesBytes : List (List Nat) → List Nat
  | [] => []
  | p :: ps => encodeFrame p ++ framesBytes ps

/-- Error outcomes of readNextSnapshot: io.EOF (zero bytes available at a
read), io.ErrUnexpectedEOF (a read satisfied only partially), or a payload
parse failure from proto.Unmarshal. -/
inductive ReadErr
  | eof
  | unexpectedEof
  | decodeErr
  deriving DecidableEq, Repr

/-- The readNextSnapshot helper of src/reader.go, over a byte stream, with
the payload decoder passed in for proto.Unmarshal: io.ReadFull of the 4-byte
length prefix (io.EOF on an empty stream, io.ErrUnexpectedEOF on 1 to 3
bytes), then io.ReadFull of the announced payload (io.EOF when nothing
remains, io.ErrUnexpectedEOF when only part remains), then the payload
parse. The second component is the remaining stream (the file position after
the call). -/
def readNextSnapshot (um : List Nat → Option Snapshot) (bs : List Nat) :
    Except ReadErr Snapshot × List Nat :=
  if bs.length = 0 then (.error .eof, [])
  else if bs.length < 4 then (.error .unexpectedEof, [])
  else if (bs.drop 4).length < fromLE (bs.take 4) then
    (if (bs.drop 4).length = 0 then (.error .eof, []) else (.error .unexpectedEof, []))
  else
    match um ((bs.drop 4).take (fromLE (bs.take 4))) with
    | some s => (.ok s, (bs.drop 4).drop (fromLE (bs.take 4)))
    | none => (.error .decodeErr, (bs.drop 4).drop (fromLE (bs.take 4)))

theorem readNextSnapshot_progress (um : List Nat → Option Snapshot) (bs : List Nat)
    (r : Except ReadErr Snapshot) (rest : List Nat) (h : readNextSnapshot um bs = (r, rest)) :
    r = Except.error ReadErr.eof ∨ rest.length < bs.length := by
  unfold readNextSnapshot at h
  split at h
  · rw [Prod.mk.injEq] at h
    exact Or.inl h.1.symm
  · rename_i h0
    split at h
    · rw [Prod.mk.injEq] at h
      right
      rw [← h.2]
      simp only [List.length_nil]
      omega
    · rename_i h1
      split at h
      · split at h <;> rw [Prod.mk.injEq] at h
        · exact Or.inl h.1.symm
        · right
          rw [← h.2]
          simp only [List.length_nil]
          omega
      · rcases hum : um ((bs.drop 4).take (fromLE (bs.take 4))) with _ | s <;>
          rw [hum] at h <;> rw [Prod.mk.injEq] at h <;> right <;> rw [← h.2] <;>
          simp only [List.length_drop] <;> omega

/-- Decoding at a frame boundary: a well-formed frame followed by anything
yields exactly the payload parse outcome and leaves the following bytes as
the new position. -/
theorem readNextSnapshot_frame (um : List Nat → Option Snapshot) (p rest : List Nat)
    (hlen : p.length < 2 ^ 32) :
    readNextSnapshot um (encodeFrame p ++ rest) =
      match um p with
      | some s => (.ok s, rest)
      | none => (.error .decodeErr, rest) := by
  have h4 : (toLE 4 p.length).length = 4 := toLE_length 4 _
  have hassoc : encodeFrame p ++ rest = toLE 4 p.length ++ (p ++ rest) := by
    simp [encodeFrame]
  have htake : (toLE 4 p.length ++ (p ++ rest)).take 4 = toLE 4 p.length := by
    rw [← h4]; exact List.take_left _ _
  have hdrop : (toLE 4 p.length ++ (p ++ rest)).drop 4 = p ++ rest := by
    rw [← h4]; exact List.drop_left _ _
  have hlen' : fromLE (toLE 4 p.length) = p.length :=
    fromLE_toLE 4 p.length (by simpa using hlen)
  have htakep : (p ++ rest).take p.length = p := List.take_left _ _
  have hdropp : (p ++ rest).drop p.length = rest := List.drop_left _ _
  have hL : (toLE 4 p.length ++ (p ++ rest)).length = 4 + (p.length + rest.length) := by
    simp [h4]
  unfold readNextSnapshot
  rw [hassoc]
  simp only [htake, hdrop, hlen', htakep, hdropp, hL, List.length_append]
  rw [if_neg (by omega), if_neg (by omega), if_neg (by omega)]

/-! ## The scan loop of src/reader.go main

The loop body is, in order: call readNextSnapshot; execute the debug print
fmt.Printf of snapshot.EventTime, which dereferences the returned pointer
and therefore panics with a nil-pointer dereference whenever
readNextSnapshot returned an error (it returns a nil snapshot alongside
every error, io.EOF included); break on io.EOF; skip and continue on other
errors; break once EventTime exceeds the target; otherwise record the
snapshot as the running candidate. Because the dereference precedes the
error checks, every error path is unreachable and the loop panics there. -/

/-- Outcome of the reader.go scan loop: either the loop finishes normally
with its running candidate, or the process panics on the nil-pointer
dereference in the debug print. -/
inductive ScanOutcome
  | panicNilDeref
  | done (cand : Option Snapshot)
  deriving DecidableEq, Repr

/-- The scan loop of src/reader.go main (with the debug print). -/
def scanLoop (um : List Nat → Option Snapshot) (target : Int) (bs : List Nat)
    (cand : Option Snapshot) : ScanOutcome :=
  match h : readNextSnapshot um bs with
  | (.error _, _) => .panicNilDeref
  | (.ok s, rest) =>
    if s.eventTime > target then .done cand
    else scanLoop um target rest (some s)
termination_by bs.length
decreasing_by
  rcases readNextSnapshot_progress um bs _ _ h with hcontra | hlt
  · exact absurd hcontra (by simp)
  · exact hlt

/-- The scan loop of src/unnamed/part_000 main (identical but without the
debug print): break on io.EOF returning the candidate, skip and continue on
other errors, break once EventTime exceeds the target, otherwise record the
snapshot as the running candidate. -/
def scanLoopClean (um : List Nat → Option Snapshot) (target : Int) (bs : List Nat)
    (cand : Option Snapshot) : Option Snapshot :=
  match h : readNextSnapshot um bs with
  | (.error .eof, _) => cand
  | (.error .unexpectedEof, rest) => scanLoopClean um target rest cand
  | (.error .decodeErr, rest) => scanLoopClean um target rest cand
  | (.ok s, rest) =>
    if s.eventTime > target then cand
    else scanLoopClean um target rest (some s)
termination_by bs.length
decreasing_by
  all_goals
    rcases readNextSnapshot_progress um bs _ _ h with hcontra | hlt
  · exact absurd hcontra (by simp)
  · exact hlt
  · exact absurd hcontra (by simp)
  · exact hlt
  · exact absurd hcontra (by simp)
  · exact hlt

/-! ## Step lemmas for the two scan loops -/

theorem readNextSnapshot_short (um : List Nat → Option Snapshot) (b4 extra : List Nat)
    (h4 : b4.length = 4) (hshort : extra.length < fromLE b4) :
    readNextSnapshot um (b4 ++ extra) =
      if extra.length = 0 then (.error .eof, []) else (.error .unexpectedEof, []) := by
  have htake : (b4 ++ extra).take 4 = b4 := by rw [← h4]; exact List.take_left _ _
  have hdrop : (b4 ++ extra).drop 4 = extra := by rw [← h4]; exact List.drop_left _ _
  have hL : (b4 ++ extra).length = 4 + extra.length := by simp [h4]
  unfold readNextSnapshot
  simp only [htake, hdrop, hL]
  rw [if_neg (by omega), if_neg (by omega), if_pos hshort]

theorem readNextSnapshot_nil (um : List Nat → Option Snapshot) :
    readNextSnapshot um [] = (.error .eof, []) := rfl

theorem scanLoop_nil (um : List Nat → Option Snapshot) (target : Int) (cand : Option Snapshot) :
    scanLoop um target [] cand = .panicNilDeref := by
  rw [scanLoop]
  split
  · rfl
  · rename_i heq
    rw [readNextSnapshot_nil] at heq
    simp at heq

theorem scanLoop_frame_ok (um : List Nat → Option Snapshot) (target : Int) (p rest : List Nat)
    (cand : Option Snapshot) (s : Snapshot) (hlen : p.length < 2 ^ 32) (hum : um p = some s) :
    scanLoop um target (encodeFrame p ++ rest) cand =
      if s.eventTime > target then .done cand else scanLoop um target rest (some s) := by
  have hread : readNextSnapshot um (encodeFrame p ++ rest) = (.ok s, rest) := by
    rw [readNextSnapshot_frame um p rest hlen, hum]
  rw [scanLoop]
  split
  · rename_i heq
    rw [hread] at heq
    simp at heq
  · rename_i s' rest' heq
    rw [hread] at heq
    injection heq with h1 h2
    injection h1 with h1
    subst h1
    subst h2
    rfl

theorem scanLoop_frame_bad (um : List Nat → Option Snapshot) (target : Int) (p rest : List Nat)
    (cand : Option Snapshot) (hlen : p.length < 2 ^ 32) (hum : um p = none) :
    scanLoop um target (encodeFrame p ++ rest) cand = .panicNilDeref := by
  have hread : readNextSnapshot um (encodeFrame p ++ rest) = (.error .decodeErr, rest) := by
    rw [readNextSnapshot_frame um p rest hlen, hum]
  rw [scanLoop]
  split
  · rfl
  · rename_i s' rest' heq
    rw [hread] at heq
    simp at heq

theorem scanLoop_short (um : List Nat → Option Snapshot) (target : Int) (b4 extra : List Nat)
    (cand : Option Snapshot) (h4 : b4.length = 4) (hshort : extra.length < fromLE b4) :
    scanLoop um target (b4 ++ extra) cand = .panicNilDeref := by
  have hread := readNextSnapshot_short um b4 extra h4 hshort
  rw [scanLoop]
  split
  · rfl
  · rename_i s' rest' heq
    rw [hread] at heq
    split at heq <;> simp at heq

theorem scanLoopClean_nil (um : List Nat → Option Snapshot) (target : Int)
    (cand : Option Snapshot) : scanLoopClean um target [] cand = cand := by
  rw [scanLoopClean]
  split
  · rfl
  · rename_i heq
    rw [readNextSnapshot_nil] at heq
    simp at heq
  · rename_i heq
    rw [readNextSnapshot_nil] at heq
    simp at heq
  · rename_i heq
    rw [readNextSnapshot_nil] at heq
    simp at heq

theorem scanLoopClean_frame_ok (um : List Nat → Option Snapshot) (target : Int)
    (p rest : List Nat) (cand : Option Snapshot) (s : Snapshot) (hlen : p.length < 2 ^ 32)
    (hum : um p = some s) :
    scanLoopClean um target (encodeFrame p ++ rest) cand =
      if s.eventTime > target then cand else scanLoopClean um target rest (some s) := by
  have hread : readNextSnapshot um (encodeFrame p ++ rest) = (.ok s, rest) := by
    rw [readNextSnapshot_frame um p rest hlen, hum]
  rw [scanLoopClean]
  split
  · rename_i heq
    rw [hread] at heq
    simp at heq
  · rename_i heq
    rw [hread] at heq
    simp at heq
  · rename_i heq
    rw [hread] at heq
    simp at heq
  · rename_i s' rest' heq
    rw [hread] at heq
    injection heq with h1 h2
    injection h1 with h1
    subst h1
    subst h2
    rfl

theorem scanLoopClean_frame_bad (um : List Nat → Option Snapshot) (target : Int)
    (p rest : List Nat) (cand : Option Snapshot) (hlen : p.length < 2 ^ 32)
    (hum : um p = none) :
    scanLoopClean um target (encodeFrame p ++ rest) cand =
      scanLoopClean um target rest cand := by
  have hread : readNextSnapshot um (encodeFrame p ++ rest) = (.error .decodeErr, rest) := by
    rw [readNextSnapshot_frame um p rest hlen, hum]
  rw [scanLoopClean]
  split
  · rename_i heq
    rw [hread] at heq
    simp at heq
  · rename_i heq
    rw [hread] at heq
    simp at heq
  · rename_i rest' heq
    rw [hread] at heq
    injection heq with h1 h2
    subst h2
    rfl
  · rename_i heq
    rw [hread] at heq
    simp at heq

theorem scanLoopClean_short (um : List Nat → Option Snapshot) (target : Int) (b4 extra : List Nat)
    (cand : Option Snapshot) (h4 : b4.length = 4) (hshort : extra.length < fromLE b4) :
    scanLoopClean um target (b4 ++ extra) cand = cand := by
  have hread := readNextSnapshot_short um b4 extra h4 hshort
  by_cases hz : extra.length = 0
  · rw [if_pos hz] at hread
    rw [scanLoopClean]
    split
    · rfl
    · rename_i heq
      rw [hread] at heq
      simp at heq
    · rename_i heq
      rw [hread] at heq
      simp at heq
    · rename_i heq
      rw [hread] at heq
      simp at heq
  · rw [if_neg hz] at hread
    rw [scanLoopClean]
    split
    · rfl
    · rename_i rest' heq
      rw [hread] at heq
      injection heq with h1 h2
      subst h2
      exact scanLoopClean_nil um target cand
    · rename_i rest' heq
      rw [hread] at heq
      simp at heq
    · rename_i heq
      rw [hread] at heq
      simp at heq

/-! ## Concrete log files for the scan claims -/

/-- A snapshot with the given event time, sequence id 0, and empty sides. -/
def snapAt (t : Int) : Snapshot :=
  { eventTime := t, lastUpdateId := 0, bids := [], asks := [] }

/-- Bytes of a log file holding well-formed frames at event times 100, 200
and 300, in that order. -/
def logFile3 : List Nat :=
  framesBytes [encodePayload (snapAt 100), encodePayload (snapAt 200),
    encodePayload (snapAt 300)]

/-- Bytes of a log file holding one well-formed frame at event time 100. -/
def logFile1 : List Nat := framesBytes [encodePayload (snapAt 100)]

/-- Bytes of a log file holding one well-formed frame at event time 100
followed by a corrupted length prefix: the prefix announces 100 payload
bytes while only 2 bytes remain in the stream. -/
def logFileCorrupt : List Nat :=
  encodeFrame (encodePayload (snapAt 100)) ++ (toLE 4 100 ++ [7, 7])

/-- A frame payload rejected by the payload parser. -/
def badPayload : List Nat := [0]

/-- Bytes of a log file with a well-formed frame at event time 100, then a
frame whose payload fails to parse, then a well-formed frame at event
time 200. -/
def logFileBadFrame : List Nat :=
  framesBytes [encodePayload (snapAt 100), badPayload, encodePayload (snapAt 200)]

/-! ## Claims C1, C2, C3, C6: the scan loop of src/reader.go

The loop in src/reader.go executes the debug print of snapshot.EventTime
before inspecting the error, and readNextSnapshot returns a nil snapshot
with every error, so every error path (clean io.EOF included) dereferences
a nil pointer and panics. The loop of src/unnamed/part_000 is the same code
without the debug print and behaves as the spec describes. The theorems
below evaluate both loops side by side at each failing input. -/

/-- C1: on a log file with frames at event times 100, 200, 300, the scan of
src/reader.go does return the frame at 200 for target 250 and NotFound for
target 50, but for target 1000 (a scan that must run to end-of-stream) it
panics on the nil dereference in the debug print instead of returning the
frame at 300; the same loop without the debug print (src/unnamed/part_000)
returns all four answers the claim states. -/
theorem c1_scan_panics_at_eof :
    scanLoop decodePayload 250 logFile3 none = ScanOutcome.done (some (snapAt 200)) ∧
    scanLoop decodePayload 50 logFile3 none = ScanOutcome.done none ∧
    scanLoop decodePayload 1000 logFile3 none = ScanOutcome.panicNilDeref ∧
    scanLoopClean decodePayload 250 logFile3 none = some (snapAt 200) ∧
    scanLoopClean decodePayload 50 logFile3 none = none ∧
    scanLoopClean decodePayload 300 logFile3 none = some (snapAt 300) ∧
    scanLoopClean decodePayload 1000 logFile3 none = some (snapAt 300) := by
  have h100 := decodePayload_encodePayload (snapAt 100) (by decide)
  have h200 := decodePayload_encodePayload (snapAt 200) (by decide)
  have h300 := decodePayload_encodePayload (snapAt 300) (by decide)
  have l100 : (encodePayload (snapAt 100)).length < 2 ^ 32 := by decide
  have l200 : (encodePayload (snapAt 200)).length < 2 ^ 32 := by decide
  have l300 : (encodePayload (snapAt 300)).length < 2 ^ 32 := by decide
  refine ⟨?_, ?_, ?_, ?_, ?_, ?_, ?_⟩ <;> simp only [logFile3, framesBytes]
  · rw [scanLoop_frame_ok _ _ _ _ _ _ l100 h100, if_neg (by decide),
      scanLoop_frame_ok _ _ _ _ _ _ l200 h200, if_neg (by decide),
      scanLoop_frame_ok _ _ _ _ _ _ l300 h300, if_pos (by decide)]
  · rw [scanLoop_frame_ok _ _ _ _ _ _ l100 h100, if_pos (by decide)]
  · rw [scanLoop_frame_ok _ _ _ _ _ _ l100 h100, if_neg (by decide),
      scanLoop_frame_ok _ _ _ _ _ _ l200 h200, if_neg (by decide),
      scanLoop_frame_ok _ _ _ _ _ _ l300 h300, if_neg (by decide), scanLoop_nil]
  · rw [scanLoopClean_frame_ok _ _ _ _ _ _ l100 h100, if_neg (by decide),
      scanLoopClean_frame_ok _ _ _ _ _ _ l200 h200, if_neg (by decide),
      scanLoopClean_frame_ok _ _ _ _ _ _ l300 h300, if_pos (by decide)]
  · rw [scanLoopClean_frame_ok _ _ _ _ _ _ l100 h100, if_pos (by decide)]
  · rw [scanLoopClean_frame_ok _ _ _ _ _ _ l100 h100, if_neg (by decide),
      scanLoopClean_frame_ok _ _ _ _ _ _ l200 h200, if_neg (by decide),
      scanLoopClean_frame_ok _ _ _ _ _ _ l300 h300, if_neg (by decide), scanLoopClean_nil]
  · rw [scanLoopClean_frame_ok _ _ _ _ _ _ l100 h100, if_neg (by decide),
      scanLoopClean_frame_ok _ _ _ _ _ _ l200 h200, if_neg (by decide),
      scanLoopClean_frame_ok _ _ _ _ _ _ l300 h300, if_neg (by decide), scanLoopClean_nil]

/-- C2: on a log file holding a single frame at event time 100 with target
200 (so no decoded frame exceeds the target), reaching end-of-stream makes
the src/reader.go loop panic on the nil dereference in the debug print — it
aborts the query instead of returning the final frame; the same loop
without the debug print returns the frame at 100 as the spec describes. -/
theorem c2_eof_aborts_query :
    scanLoop decodePayload 200 logFile1 none = ScanOutcome.panicNilDeref ∧
    scanLoopClean decodePayload 200 logFile1 none = some (snapAt 100) := by
  have h100 := decodePayload_encodePayload (snapAt 100) (by decide)
  have l100 : (encodePayload (snapAt 100)).length < 2 ^ 32 := by decide
  constructor <;> simp only [logFile1, framesBytes]
  · rw [scanLoop_frame_ok _ _ _ _ _ _ l100 h100, if_neg (by decide), scanLoop_nil]
  · rw [scanLoopClean_frame_ok _ _ _ _ _ _ l100 h100, if_neg (by decide), scanLoopClean_nil]

/-- C3: on a log file holding a well-formed frame at event time 100 and
then a corrupted length prefix (announcing 100 bytes with 2 remaining),
with target 500, the src/reader.go loop panics on the nil dereference in
the debug print when io.ReadFull fails on the truncated payload, instead of
terminating the scan and returning the accumulated candidate; the same loop
without the debug print returns the frame at 100 and decodes nothing after
the corruption, as the claim states. -/
theorem c3_corrupt_prefix_panics :
    scanLoop decodePayload 500 logFileCorrupt none = ScanOutcome.panicNilDeref ∧
    scanLoopClean decodePayload 500 logFileCorrupt none = some (snapAt 100) := by
  have h100 := decodePayload_encodePayload (snapAt 100) (by decide)
  have l100 : (encodePayload (snapAt 100)).length < 2 ^ 32 := by decide
  have h4 : (toLE 4 100).length = 4 := toLE_length 4 100
  have hshort : ([7, 7] : List Nat).length < fromLE (toLE 4 100) := by decide
  constructor <;> simp only [logFileCorrupt]
  · rw [scanLoop_frame_ok _ _ _ _ _ _ l100 h100, if_neg (by decide),
      scanLoop_short _ _ _ _ _ h4 hshort]
  · rw [scanLoopClean_frame_ok _ _ _ _ _ _ l100 h100, if_neg (by decide),
      scanLoopClean_short _ _ _ _ _ h4 hshort]

/-- C6: on a log file with a well-formed frame at event time 100, a frame
whose payload fails to parse, and a well-formed frame at event time 200,
with target 250, the src/reader.go loop panics on the nil dereference in
the debug print at the malformed frame instead of skipping it; the same
loop without the debug print skips the malformed frame and returns the
later well-formed frame at 200, as the claim states. -/
theorem c6_bad_frame_panics_not_skipped :
    scanLoop decodePayload 250 logFileBadFrame none = ScanOutcome.panicNilDeref ∧
    scanLoopClean decodePayload 250 logFileBadFrame none = some (snapAt 200) := by
  have h100 := decodePayload_encodePayload (snapAt 100) (by decide)
  have h200 := decodePayload_encodePayload (snapAt 200) (by decide)
  have l100 : (encodePayload (snapAt 100)).length < 2 ^ 32 := by decide
  have l200 : (encodePayload (snapAt 200)).length < 2 ^ 32 := by decide
  have hbad : decodePayload badPayload = none := by decide
  have lbad : badPayload.length < 2 ^ 32 := by decide
  constructor <;> simp only [logFileBadFrame, framesBytes]
  · rw [scanLoop_frame_ok _ _ _ _ _ _ l100 h100, if_neg (by decide),
      scanLoop_frame_bad _ _ _ _ _ lbad hbad]
  · rw [scanLoopClean_frame_ok _ _ _ _ _ _ l100 h100, if_neg (by decide),
      scanLoopClean_frame_bad _ _ _ _ _ lbad hbad,
      scanLoopClean_frame_ok _ _ _ _ _ _ l200 h200, if_neg (by decide), scanLoopClean_nil]

/-! ## Claim C4: outcome of a whole query run (src/reader.go main) -/

/-- Outcome of one run of the reader program on a query: log.Fatalf when
the resolved day file cannot be opened, the scan panic, the log.Fatal
report when the scan finishes with no candidate, or the rendered book for
the found snapshot. -/
inductive QueryOutcome
  | fatalOpenFail
  | panicNilDeref
  | fatalNotFound
  | book (s : Snapshot)
  deriving DecidableEq, Repr

/-- Whether an outcome ends the process through log.Fatal or log.Fatalf
(both call os.Exit after printing): the open failure and the no-snapshot
report do. -/
def terminatesProcess : QueryOutcome → Bool
  | .fatalOpenFail => true
  | .fatalNotFound => true
  | _ => false

/-- Whether an outcome is a raised exception (a Go runtime panic). -/
def raisesException : QueryOutcome → Bool
  | .panicNilDeref => true
  | _ => false

/-- The query flow of src/reader.go main: open the resolved day file
(log.Fatalf and exit if that fails), run the scan loop with an empty
candidate, then either report the nil candidate via log.Fatal or render
the found snapshot. -/
def runQuery (um : List Nat → Option Snapshot) (fileExists : Bool) (bs : List Nat)
    (target : Int) : QueryOutcome :=
  if fileExists = false then .fatalOpenFail
  else
    match scanLoop um target bs none with
    | .panicNilDeref => .panicNilDeref
    | .done none => .fatalNotFound
    | .done (some s) => .book s

/-- C4 counterexample: on a present day file holding one frame at event
time 100 with target 50, no frame qualifies; the program reaches its
explicit NotFound branch but that branch is log.Fatal, which terminates
the process — contradicting the part of the claim that says the process is
not terminated (the absent-file branch likewise exits via log.Fatalf). -/
theorem c4_notfound_terminates_process :
    runQuery decodePayload true logFile1 50 = QueryOutcome.fatalNotFound ∧
    terminatesProcess (runQuery decodePayload true logFile1 50) = true ∧
    runQuery decodePayload false logFile1 50 = QueryOutcome.fatalOpenFail ∧
    terminatesProcess QueryOutcome.fatalOpenFail = true := by
  have h100 := decodePayload_encodePayload (snapAt 100) (by decide)
  have l100 : (encodePayload (snapAt 100)).length < 2 ^ 32 := by decide
  have hscan : scanLoop decodePayload 50 logFile1 none = ScanOutcome.done none := by
    simp only [logFile1, framesBytes]
    rw [scanLoop_frame_ok _ _ _ _ _ _ l100 h100, if_pos (by decide)]
  refine ⟨?_, ?_, rfl, rfl⟩ <;> simp [runQuery, hscan, terminatesProcess]

/-- C4 amended: whenever the scan finishes with no qualifying candidate
(no frame with eventTime at or below the target was seen before a frame
exceeding it), and whenever the resolved day file is absent, the query ends
in an explicit distinguished NotFound outcome — it is not surfaced as a
raised exception — and the program reports it via a fatal log message,
exiting the process. -/
theorem c4_amended_notfound_explicit (um : List Nat → Option Snapshot) (bs : List Nat)
    (target : Int) (h : scanLoop um target bs none = ScanOutcome.done none) :
    runQuery um true bs target = QueryOutcome.fatalNotFound ∧
    raisesException (runQuery um true bs target) = false ∧
    terminatesProcess (runQuery um true bs target) = true ∧
    runQuery um false bs target = QueryOutcome.fatalOpenFail ∧
    raisesException (runQuery um false bs target) = false ∧
    terminatesProcess (runQuery um false bs target) = true := by
  refine ⟨?_, ?_, ?_, rfl, rfl, rfl⟩ <;> simp [runQuery, h, raisesException, terminatesProcess]

/-- Witness for the amended C4 at a concrete input: a day file holding one
frame at event time 100, target 50. -/
theorem c4_amended_witness :
    scanLoop decodePayload 50 logFile1 none = ScanOutcome.done none ∧
    runQuery decodePayload true logFile1 50 = QueryOutcome.fatalNotFound ∧
    runQuery decodePayload false logFile1 50 = QueryOutcome.fatalOpenFail := by
  have h100 := decodePayload_encodePayload (snapAt 100) (by decide)
  have l100 : (encodePayload (snapAt 100)).length < 2 ^ 32 := by decide
  have hscan : scanLoop decodePayload 50 logFile1 none = ScanOutcome.done none := by
    simp only [logFile1, framesBytes]
    rw [scanLoop_frame_ok _ _ _ _ _ _ l100 h100, if_pos (by decide)]
  have hc := c4_amended_notfound_explicit decodePayload logFile1 50 hscan
  exact ⟨hscan, hc.1, hc.2.2.2.1⟩

/-! ## Claim C5: frame round-trip -/

/-- C5: encoding a Snapshot as a frame (4-byte little-endian length prefix
followed by exactly the payload bytes, as FileManager.writeSnapshot writes
it) and decoding the result with readNextSnapshot reproduces eventTime,
lastUpdateId, and every level pair on both sides in order, leaving any
following bytes as the new position. The bounds say the snapshot is
machine-representable: int64 range for the integer fields, 64-bit patterns
for the float fields, sequence counts and total payload below the uint32
framing limit. -/
theorem c5_frame_roundtrip (s : Snapshot) (hb : SnapshotBounded s)
    (hlen : (encodePayload s).length < 2 ^ 32) (rest : List Nat) :
    readNextSnapshot decodePayload (encodeFrame (encodePayload s) ++ rest) =
      (Except.ok s, rest) := by
  rw [readNextSnapshot_frame _ _ _ hlen, decodePayload_encodePayload s hb]

/-- Witness for C5 at a concrete snapshot with a negative event time, a
large sequence id and levels on both sides (price and quantity given as
IEEE-754 bit patterns, including the patterns of 10.0 and 1.5). -/
theorem c5_frame_roundtrip_witness :
    SnapshotBounded
      { eventTime := -5, lastUpdateId := 123456789,
        bids := [{ price := 4621819117588971520, quantity := 4609434218613702656 }],
        asks := [{ price := 1, quantity := 2 }, { price := 3, quantity := 4 }] } ∧
    (encodePayload
      { eventTime := -5, lastUpdateId := 123456789,
        bids := [{ price := 4621819117588971520, quantity := 4609434218613702656 }],
        asks := [{ price := 1, quantity := 2 }, { price := 3, quantity := 4 }] }).length <
      2 ^ 32 ∧
    readNextSnapshot decodePayload
      (encodeFrame (encodePayload
        { eventTime := -5, lastUpdateId := 123456789,
          bids := [{ price := 4621819117588971520, quantity := 4609434218613702656 }],
          asks := [{ price := 1, quantity := 2 }, { price := 3, quantity := 4 }] }) ++ [9]) =
      (Except.ok
        { eventTime := -5, lastUpdateId := 123456789,
          bids := [{ price := 4621819117588971520, quantity := 4609434218613702656 }],
          asks := [{ price := 1, quantity := 2 }, { price := 3, quantity := 4 }] }, [9]) :=
  ⟨by decide, by decide, c5_frame_roundtrip _ (by decide) (by decide) [9]⟩

/-! ## Association maps (Go map lookup and update semantics) -/

/-- Lookup in an association list, the model of a Go map read. -/
def alookup {κ α : Type} [DecidableEq κ] (k : κ) : List (κ × α) → Option α
  | [] => none
  | (k₂, v) :: rest => if k₂ = k then some v else alookup k rest

/-- Update-or-insert in an association list, the model of a Go map write. -/
def aset {κ α : Type} [DecidableEq κ] (k : κ) (v : α) : List (κ × α) → List (κ × α)
  | [] => [(k, v)]
  | (k₂, v₂) :: rest => if k₂ = k then (k, v) :: rest else (k₂, v₂) :: aset k v rest

theorem alookup_aset_self {κ α : Type} [DecidableEq κ] (k : κ) (v : α) (m : List (κ × α)) :
    alookup k (aset k v m) = some v := by
  induction m with
  | nil => simp [aset, alookup]
  | cons kv rest ih =>
    obtain ⟨k₂, v₂⟩ := kv
    by_cases h : k₂ = k
    · simp [aset, alookup, h]
    · simp [aset, alookup, h, ih]

theorem alookup_aset_other {κ α : Type} [DecidableEq κ] (k q : κ) (v : α) (m : List (κ × α))
    (h : k ≠ q) : alookup q (aset k v m) = alookup q m := by
  induction m with
  | nil => simp [aset, alookup, h]
  | cons kv rest ih =>
    obtain ⟨k₂, v₂⟩ := kv
    by_cases h₂ : k₂ = k
    · subst h₂
      simp [aset, alookup, h, ih]
    · by_cases h₃ : k₂ = q <;> simp [aset, alookup, h₂, h₃, Ne.symm h, ih]

/-! ## Log file paths (FileManager.getWriter path construction) -/

/-- Model of strings.ToLower on the symbol names used here: lowercase each
character. -/
def toLowerGo (s : String) : String := String.mk (s.data.map Char.toLower)

/-- Path of the log file for a lowercased symbol and a UTC date string, as
built in FileManager.getWriter with dataDir = "data":
data/<symbolLower>/<symbolLower>_<utcDate>.bin. -/
def filePath (symbolLower utcDate : String) : String :=
  "data/" ++ symbolLower ++ "/" ++ symbolLower ++ "_" ++ utcDate ++ ".bin"

/-- A string without the path separator, true of every real symbol name. -/
def SlashFree (s : String) : Prop := ∀ c ∈ s.data, c ≠ '/'

instance (s : String) : Decidable (SlashFree s) := by
  unfold SlashFree; infer_instance

theorem slashFree_split (a : List Char) : ∀ (b r r₂ : List Char),
    (∀ c ∈ a, c ≠ '/') → (∀ c ∈ b, c ≠ '/') →
    a ++ '/' :: r = b ++ '/' :: r₂ → a = b ∧ r = r₂ := by
  induction a with
  | nil =>
    intro b r r₂ _ hb h
    cases b with
    | nil => simpa using h
    | cons c bs =>
      simp only [List.nil_append, List.cons_append, List.cons.injEq] at h
      exact absurd h.1.symm (hb c (List.mem_cons_self c bs))
  | cons c as ih =>
    intro b r r₂ ha hb h
    cases b with
    | nil =>
      simp only [List.cons_append, List.nil_append, List.cons.injEq] at h
      exact absurd h.1 (ha c (List.mem_cons_self c as))
    | cons c₂ bs =>
      simp only [List.cons_append, List.cons.injEq] at h
      obtain ⟨rfl, h⟩ := h
      obtain ⟨h1, h2⟩ := ih bs r r₂ (fun x hx => ha x (List.mem_cons_of_mem c hx))
        (fun x hx => hb x (List.mem_cons_of_mem c hx)) h
      exact ⟨by rw [h1], h2⟩

theorem string_data_append (a b : String) : (a ++ b).data = a.data ++ b.data := rfl

theorem filePath_data (s d : String) :
    (filePath s d).data =
      "data/".data ++ (s.data ++ ('/' :: (s.data ++ ('_' :: (d.data ++ ".bin".data))))) := by
  simp only [filePath, string_data_append, List.append_assoc]
  rfl

/-- Distinct (symbol, date) pairs give distinct log file paths, for
slash-free symbol names. -/
theorem filePath_inj (s s₂ d d₂ : String) (hs : SlashFree s) (hs₂ : SlashFree s₂)
    (h : filePath s d = filePath s₂ d₂) : s = s₂ ∧ d = d₂ := by
  have hd := congrArg String.data h
  rw [filePath_data, filePath_data] at hd
  have hd₂ := List.append_cancel_left hd
  obtain ⟨h1, h2⟩ := slashFree_split s.data s₂.data _ _ hs hs₂ hd₂
  rw [h1] at h2
  have h3 := List.append_cancel_left h2
  simp only [List.cons.injEq, true_and] at h3
  have h4 := List.append_cancel_right h3
  exact ⟨String.ext h1, String.ext h4⟩

/-! ## Claim C7: the rotating log writer (src/unnamed/part_001 FileManager)

The FileManager holds three maps keyed by lowercased symbol or by path:
the last UTC date written under, the open file handle (modelled by the
path it appends to), and — modelling the file system — the content bytes
of every file, keyed by path. -/

structure FileManager where
  currentDates : List (String × String)
  openFiles : List (String × String)
  files : List (String × List Nat)
  deriving DecidableEq, Repr

/-- NewFileManager: all maps empty (no files yet). -/
def NewFileManager : FileManager := { currentDates := [], openFiles := [], files := [] }

/-- Create-if-absent: os.OpenFile with O_APPEND, O_CREATE and O_WRONLY
leaves an existing file untouched and creates an empty one otherwise. -/
def ensureFile (path : String) (files : List (String × List Nat)) :
    List (String × List Nat) :=
  match alookup path files with
  | some _ => files
  | none => aset path [] files

/-- FileManager.getWriter for one symbol at the current UTC date: when the
recorded date for the symbol equals todays UTC date, return the existing
writer (the open handle, possibly absent); otherwise flush and close any
previous file, ensure the day file exists, open it in append mode, record
the new date and handle, and return the new writer. The returned path is
where the writer appends; none models a nil writer (never produced in a
real run, where the date and handle maps are always set together). -/
def getWriter (fm : FileManager) (symbol utcDate : String) : FileManager × Option String :=
  if alookup (toLowerGo symbol) fm.currentDates = some utcDate then
    (fm, alookup (toLowerGo symbol) fm.openFiles)
  else
    ({ currentDates := aset (toLowerGo symbol) utcDate fm.currentDates,
       openFiles := aset (toLowerGo symbol) (filePath (toLowerGo symbol) utcDate) fm.openFiles,
       files := ensureFile (filePath (toLowerGo symbol) utcDate) fm.files },
     some (filePath (toLowerGo symbol) utcDate))

/-- FileManager.writeSnapshot: obtain the writer via getWriter, then append
the frame (4-byte little-endian length prefix and payload) to that file and
flush. A nil writer is modelled as leaving the state unchanged (the real
program would panic there; the case is unreachable from NewFileManager). -/
def writeSnapshot (fm : FileManager) (symbol utcDate : String) (payload : List Nat) :
    FileManager :=
  match getWriter fm symbol utcDate with
  | (fm₁, none) => fm₁
  | (fm₁, some path) =>
    { fm₁ with
      files := aset path ((alookup path fm₁.files).getD [] ++ encodeFrame payload) fm₁.files }

/-- Run a sequence of appends (symbol, UTC date of the append, payload). -/
def runAppends (fm : FileManager) : List (String × String × List Nat) → FileManager
  | [] => fm
  | a :: rest => runAppends (writeSnapshot fm a.1 a.2.1 a.2.2) rest

/-- Consistency of the per-symbol maps, true in every state reachable from
NewFileManager: whenever a date is recorded for a symbol, the recorded open
handle appends to the day file for that symbol and date. -/
def DatesOpenConsistent (fm : FileManager) : Prop :=
  ∀ s d, alookup s fm.currentDates = some d → alookup s fm.openFiles = some (filePath s d)

theorem alookup_ensureFile_self (path : String) (files : List (String × List Nat)) :
    alookup path (ensureFile path files) = some ((alookup path files).getD []) := by
  unfold ensureFile
  rcases h : alookup path files with _ | c
  · simp [alookup_aset_self]
  · simp [h]

theorem alookup_ensureFile_other (path q : String) (files : List (String × List Nat))
    (h : path ≠ q) : alookup q (ensureFile path files) = alookup q files := by
  unfold ensureFile
  rcases h₂ : alookup path files with _ | c
  · rw [alookup_aset_other _ _ _ _ h]
  · rfl

theorem writeSnapshot_eq_matched (fm : FileManager) (symbol utcDate : String)
    (payload : List Nat) (path : String)
    (hm : alookup (toLowerGo symbol) fm.currentDates = some utcDate)
    (ho : alookup (toLowerGo symbol) fm.openFiles = some path) :
    writeSnapshot fm symbol utcDate payload =
      { fm with
        files := aset path ((alookup path fm.files).getD [] ++ encodeFrame payload) fm.files } := by
  unfold writeSnapshot getWriter
  rw [if_pos hm, ho]

theorem writeSnapshot_eq_rotate (fm : FileManager) (symbol utcDate : String)
    (payload : List Nat)
    (hm : alookup (toLowerGo symbol) fm.currentDates ≠ some utcDate) :
    writeSnapshot fm symbol utcDate payload =
      { currentDates := aset (toLowerGo symbol) utcDate fm.currentDates,
        openFiles :=
          aset (toLowerGo symbol) (filePath (toLowerGo symbol) utcDate) fm.openFiles,
        files :=
          aset (filePath (toLowerGo symbol) utcDate)
            ((alookup (filePath (toLowerGo symbol) utcDate)
                (ensureFile (filePath (toLowerGo symbol) utcDate) fm.files)).getD [] ++
              encodeFrame payload)
            (ensureFile (filePath (toLowerGo symbol) utcDate) fm.files) } := by
  unfold writeSnapshot getWriter
  rw [if_neg hm]

theorem writeSnapshot_consistent (fm : FileManager) (symbol utcDate : String)
    (payload : List Nat) (hfm : DatesOpenConsistent fm) :
    DatesOpenConsistent (writeSnapshot fm symbol utcDate payload) := by
  by_cases hm : alookup (toLowerGo symbol) fm.currentDates = some utcDate
  · rcases ho : alookup (toLowerGo symbol) fm.openFiles with _ | path
    · intro s d hcd
      unfold writeSnapshot getWriter
      rw [if_pos hm, ho]
      unfold writeSnapshot getWriter at hcd
      rw [if_pos hm, ho] at hcd
      exact hfm s d hcd
    · intro s d hcd
      rw [writeSnapshot_eq_matched fm symbol utcDate payload path hm ho] at hcd ⊢
      exact hfm s d hcd
  · intro s d hcd
    rw [writeSnapshot_eq_rotate fm symbol utcDate payload hm] at hcd ⊢
    by_cases hs : toLowerGo symbol = s
    · subst hs
      rw [alookup_aset_self] at hcd
      injection hcd with hcd
      subst hcd
      simp [alookup_aset_self]
    · rw [alookup_aset_other _ _ _ _ hs] at hcd
      rw [alookup_aset_other _ _ _ _ hs]
      exact hfm s d hcd

theorem writeSnapshot_currentDates (fm : FileManager) (symbol utcDate : String)
    (payload : List Nat) :
    alookup (toLowerGo symbol) (writeSnapshot fm symbol utcDate payload).currentDates =
      some utcDate := by
  by_cases hm : alookup (toLowerGo symbol) fm.currentDates = some utcDate
  · rcases ho : alookup (toLowerGo symbol) fm.openFiles with _ | path
    · unfold writeSnapshot getWriter
      rw [if_pos hm, ho]
      exact hm
    · rw [writeSnapshot_eq_matched fm symbol utcDate payload path hm ho]
      exact hm
  · rw [writeSnapshot_eq_rotate fm symbol utcDate payload hm]
    exact alookup_aset_self _ _ _

theorem writeSnapshot_files_self (fm : FileManager) (symbol utcDate : String)
    (payload : List Nat) (hfm : DatesOpenConsistent fm) :
    alookup (filePath (toLowerGo symbol) utcDate)
        (writeSnapshot fm symbol utcDate payload).files =
      some ((alookup (filePath (toLowerGo symbol) utcDate) fm.files).getD [] ++
        encodeFrame payload) := by
  by_cases hm : alookup (toLowerGo symbol) fm.currentDates = some utcDate
  · have ho := hfm _ _ hm
    rw [writeSnapshot_eq_matched fm symbol utcDate payload _ hm ho]
    exact alookup_aset_self _ _ _
  · rw [writeSnapshot_eq_rotate fm symbol utcDate payload hm]
    simp only [alookup_aset_self, alookup_ensureFile_self, Option.getD_some]

theorem writeSnapshot_files_other (fm : FileManager) (symbol utcDate : String)
    (payload : List Nat) (q : String) (hfm : DatesOpenConsistent fm)
    (hq : filePath (toLowerGo symbol) utcDate ≠ q) :
    alookup q (writeSnapshot fm symbol utcDate payload).files = alookup q fm.files := by
  by_cases hm : alookup (toLowerGo symbol) fm.currentDates = some utcDate
  · have ho := hfm _ _ hm
    rw [writeSnapshot_eq_matched fm symbol utcDate payload _ hm ho]
    exact alookup_aset_other _ _ _ _ hq
  · rw [writeSnapshot_eq_rotate fm symbol utcDate payload hm]
    simp only
    rw [alookup_aset_other _ _ _ _ hq, alookup_ensureFile_other _ _ _ hq]

theorem runAppends_consistent (appends : List (String × String × List Nat)) :
    ∀ fm : FileManager, DatesOpenConsistent fm →
      DatesOpenConsistent (runAppends fm appends) := by
  induction appends with
  | nil => exact fun fm hfm => hfm
  | cons a rest ih =>
    intro fm hfm
    exact ih _ (writeSnapshot_consistent fm a.1 a.2.1 a.2.2 hfm)

theorem runAppends_files_other (q : String) (appends : List (String × String × List Nat)) :
    ∀ fm : FileManager, DatesOpenConsistent fm →
      (∀ a ∈ appends, filePath (toLowerGo a.1) a.2.1 ≠ q) →
      alookup q (runAppends fm appends).files = alookup q fm.files := by
  induction appends with
  | nil => exact fun fm _ _ => rfl
  | cons a rest ih =>
    intro fm hfm happ
    unfold runAppends
    rw [ih _ (writeSnapshot_consistent fm a.1 a.2.1 a.2.2 hfm)
      (fun b hb => happ b (List.mem_cons_of_mem a hb))]
    exact writeSnapshot_files_other fm a.1 a.2.1 a.2.2 q hfm
      (happ a (List.mem_cons_self a rest))

/-- C7: file identity and rotation. With the writer state consistent (true
of every state reachable from NewFileManager) and slash-free symbol names:
(i) two appends for symbol sym on the same UTC date d write their frames,
in order, into the same file data/symL/symL_d.bin;
(ii) the day-d₂ path differs from the day-d path, an append on the later
date d₂ switches the symbol's open handle to the new day path (the old
handle is closed and replaced), and leaves the day-d file bytes unchanged;
(iii) the day-d file bytes are further unchanged by every subsequent
sequence of appends whose (lowercased symbol, date) differs from
(lowercased sym, d) — in particular by all appends made on later dates. -/
theorem c7_rotation_file_identity
    (fm : FileManager) (sym d d₂ : String) (p₁ p₂ p₃ : List Nat)
    (appends : List (String × String × List Nat))
    (hfm : DatesOpenConsistent fm)
    (hs : SlashFree (toLowerGo sym))
    (hd : d ≠ d₂)
    (happ : ∀ a ∈ appends, SlashFree (toLowerGo a.1) ∧
      (toLowerGo a.1 ≠ toLowerGo sym ∨ a.2.1 ≠ d)) :
    alookup (filePath (toLowerGo sym) d)
        (writeSnapshot (writeSnapshot fm sym d p₁) sym d p₂).files =
      some ((alookup (filePath (toLowerGo sym) d) fm.files).getD [] ++
        encodeFrame p₁ ++ encodeFrame p₂) ∧
    filePath (toLowerGo sym) d₂ ≠ filePath (toLowerGo sym) d ∧
    alookup (toLowerGo sym)
        (writeSnapshot (writeSnapshot fm sym d p₁) sym d₂ p₃).openFiles =
      some (filePath (toLowerGo sym) d₂) ∧
    alookup (filePath (toLowerGo sym) d)
        (writeSnapshot (writeSnapshot fm sym d p₁) sym d₂ p₃).files =
      alookup (filePath (toLowerGo sym) d) (writeSnapshot fm sym d p₁).files ∧
    alookup (filePath (toLowerGo sym) d)
        (runAppends (writeSnapshot (writeSnapshot fm sym d p₁) sym d₂ p₃) appends).files =
      alookup (filePath (toLowerGo sym) d) (writeSnapshot fm sym d p₁).files := by
  have hfm₁ : DatesOpenConsistent (writeSnapshot fm sym d p₁) :=
    writeSnapshot_consistent fm sym d p₁ hfm
  have hne : filePath (toLowerGo sym) d₂ ≠ filePath (toLowerGo sym) d := by
    intro hcontra
    exact hd ((filePath_inj _ _ _ _ hs hs hcontra).2.symm)
  have hsame : alookup (filePath (toLowerGo sym) d)
      (writeSnapshot (writeSnapshot fm sym d p₁) sym d p₂).files =
      some ((alookup (filePath (toLowerGo sym) d) fm.files).getD [] ++
        encodeFrame p₁ ++ encodeFrame p₂) := by
    rw [writeSnapshot_files_self _ sym d p₂ hfm₁, writeSnapshot_files_self _ sym d p₁ hfm]
    simp [List.append_assoc]
  have hrot : alookup (toLowerGo sym) (writeSnapshot fm sym d p₁).currentDates ≠ some d₂ := by
    rw [writeSnapshot_currentDates fm sym d p₁]
    intro hcontra
    injection hcontra with hcontra
    exact hd hcontra
  have hopen : alookup (toLowerGo sym)
      (writeSnapshot (writeSnapshot fm sym d p₁) sym d₂ p₃).openFiles =
      some (filePath (toLowerGo sym) d₂) := by
    rw [writeSnapshot_eq_rotate _ sym d₂ p₃ hrot]
    exact alookup_aset_self _ _ _
  have hold : alookup (filePath (toLowerGo sym) d)
      (writeSnapshot (writeSnapshot fm sym d p₁) sym d₂ p₃).files =
      alookup (filePath (toLowerGo sym) d) (writeSnapshot fm sym d p₁).files :=
    writeSnapshot_files_other _ sym d₂ p₃ _ hfm₁ hne
  have hrest : alookup (filePath (toLowerGo sym) d)
      (runAppends (writeSnapshot (writeSnapshot fm sym d p₁) sym d₂ p₃) appends).files =
      alookup (filePath (toLowerGo sym) d) (writeSnapshot fm sym d p₁).files := by
    rw [runAppends_files_other _ appends _
      (writeSnapshot_consistent _ sym d₂ p₃ hfm₁)
      (fun a ha => by
        intro hcontra
        obtain ⟨ha₁, ha₂⟩ := happ a ha
        obtain ⟨hps, hpd⟩ := filePath_inj _ _ _ _ ha₁ hs hcontra
        rcases ha₂ with h₂ | h₂
        · exact h₂ hps
        · exact h₂ hpd)]
    exact hold
  exact ⟨hsame, hne, hopen, hold, hrest⟩

/-- Witness for C7: the fresh writer state, symbol ETHUSDT, dates
2025-08-17 and 2025-08-18, and a subsequent append for another symbol and
one for the same symbol on the later date. -/
theorem c7_rotation_file_identity_witness :
    DatesOpenConsistent NewFileManager ∧
    SlashFree (toLowerGo "ETHUSDT") ∧
    ("2025-08-17" : String) ≠ "2025-08-18" ∧
    (∀ a ∈ [("BTCUSDT", "2025-08-18", [4]), ("ETHUSDT", "2025-08-18", [5])],
      SlashFree (toLowerGo a.1) ∧
        (toLowerGo a.1 ≠ toLowerGo "ETHUSDT" ∨ a.2.1 ≠ "2025-08-17")) ∧
    alookup (filePath (toLowerGo "ETHUSDT") "2025-08-17")
        (writeSnapshot (writeSnapshot NewFileManager "ETHUSDT" "2025-08-17" [1])
          "ETHUSDT" "2025-08-17" [2, 9]).files =
      some ((alookup (filePath (toLowerGo "ETHUSDT") "2025-08-17")
          NewFileManager.files).getD [] ++ encodeFrame [1] ++ encodeFrame [2, 9]) ∧
    alookup (filePath (toLowerGo "ETHUSDT") "2025-08-17")
        (runAppends
          (writeSnapshot (writeSnapshot NewFileManager "ETHUSDT" "2025-08-17" [1])
            "ETHUSDT" "2025-08-18" [3])
          [("BTCUSDT", "2025-08-18", [4]), ("ETHUSDT", "2025-08-18", [5])]).files =
      alookup (filePath (toLowerGo "ETHUSDT") "2025-08-17")
        (writeSnapshot NewFileManager "ETHUSDT" "2025-08-17" [1]).files := by
  have hfm : DatesOpenConsistent NewFileManager := by
    intro s d h
    simp [NewFileManager, alookup] at h
  have hc := c7_rotation_file_identity NewFileManager "ETHUSDT" "2025-08-17" "2025-08-18"
    [1] [2, 9] [3] [("BTCUSDT", "2025-08-18", [4]), ("ETHUSDT", "2025-08-18", [5])]
    hfm (by decide) (by decide) (by decide)
  exact ⟨hfm, by decide, by decide, by decide, hc.1, hc.2.2.2.2⟩

/-! ## Claim C8: locking structure of the append path (src/unnamed/part_001)

The mutex-relevant events of one FileManager.writeSnapshot call, in program
order. getWriter takes fm.mu.Lock() with a deferred Unlock around the
rotation decision and returns; writeSnapshot then marshals outside any lock
and takes fm.mu.Lock() a second time, with a deferred Unlock, around the
frame write and flush. -/

/-- One mutex-relevant event on the append path. -/
inductive MuEvent
  | lock
  | unlock
  | rotateDecision
  | frameWrite
  deriving DecidableEq, Repr

/-- Mutex events of one FileManager.getWriter call: fm.mu.Lock(), the
rotation decision (date comparison and possible file switch), the deferred
fm.mu.Unlock() on return. -/
def getWriterEvents : List MuEvent := [.lock, .rotateDecision, .unlock]

/-- Mutex events of one FileManager.writeSnapshot call: the getWriter call,
then — after proto.Marshal, outside any lock — fm.mu.Lock(), the frame
write (length prefix, payload, flush), and the deferred fm.mu.Unlock(). -/
def writeSnapshotEvents : List MuEvent := getWriterEvents ++ [.lock, .frameWrite, .unlock]

/-- The trace keeps every rotation decision and every later frame write
inside one critical section: no unlock lies between them. -/
def OneCriticalSection (tr : List MuEvent) : Prop :=
  ∀ i j k : Fin tr.length, i ≤ k → k ≤ j →
    tr.get i = MuEvent.rotateDecision → tr.get j = MuEvent.frameWrite →
    tr.get k ≠ MuEvent.unlock

instance (tr : List MuEvent) : Decidable (OneCriticalSection tr) := by
  unfold OneCriticalSection; infer_instance

/-- Every rotation decision and frame write in the trace happens while the
lock is held (depth positive). -/
def underLock : Nat → List MuEvent → Bool
  | _, [] => true
  | d, .lock :: rest => underLock (d + 1) rest
  | d, .unlock :: rest => underLock (d - 1) rest
  | d, .rotateDecision :: rest => decide (0 < d) && underLock d rest
  | d, .frameWrite :: rest => decide (0 < d) && underLock d rest

/-- Thread identifiers for two concurrent append calls. -/
inductive Tid
  | tA
  | tB
  deriving DecidableEq, Repr

/-- A tagged schedule respects the mutex: a thread acquires only when the
lock is free, only the holder unlocks, and the locked work (rotation
decision, frame write) is executed by the holder. -/
def mutexOk : Option Tid → List (Tid × MuEvent) → Bool
  | _, [] => true
  | none, (t, .lock) :: rest => mutexOk (some t) rest
  | some _, (_, .lock) :: _ => false
  | some h, (t, .unlock) :: rest => h == t && mutexOk none rest
  | none, (_, .unlock) :: _ => false
  | some h, (t, .rotateDecision) :: rest => h == t && mutexOk (some h) rest
  | none, (_, .rotateDecision) :: _ => false
  | some h, (t, .frameWrite) :: rest => h == t && mutexOk (some h) rest
  | none, (_, .frameWrite) :: _ => false

/-- A tagged schedule is an interleaving of the two threads' own event
lists, preserving each thread's program order. -/
def isMerge : List (Tid × MuEvent) → List MuEvent → List MuEvent → Bool
  | [], [], [] => true
  | (Tid.tA, e) :: rest, x :: xs, ys => e == x && isMerge rest xs ys
  | (Tid.tB, e) :: rest, xs, y :: ys => e == y && isMerge rest xs ys
  | _, _, _ => false

/-- A mutex-respecting schedule of two concurrent writeSnapshot calls in
which thread B performs its entire append — rotation decision and frame
write — strictly between thread A's rotation decision and A's frame
write. -/
def interleavedAppends : List (Tid × MuEvent) :=
  [(Tid.tA, .lock), (Tid.tA, .rotateDecision), (Tid.tA, .unlock),
   (Tid.tB, .lock), (Tid.tB, .rotateDecision), (Tid.tB, .unlock),
   (Tid.tB, .lock), (Tid.tB, .frameWrite), (Tid.tB, .unlock),
   (Tid.tA, .lock), (Tid.tA, .frameWrite), (Tid.tA, .unlock)]

/-- C8 counterexample: the append path does not keep its rotation decision
and its frame write in one critical section — in writeSnapshotEvents the
rotation decision (index 1), the unlock ending the getWriter critical
section (index 2) and the frame write (index 4) violate the property. -/
theorem c8_not_one_critical_section : ¬ OneCriticalSection writeSnapshotEvents := by decide

/-- C8 amended: the rotation decision and the frame write are each
executed while the shared mutex is held, but in two separate critical
sections — the mutex is released between them (the explicit event list
shows the unlock at index 2 between the decision at index 1 and the write
at index 4) — so a mutex-respecting schedule exists in which a concurrent
append call runs its whole rotation decision and frame write between one
call's rotation decision and frame write. -/
theorem c8_two_sections_can_interleave :
    writeSnapshotEvents =
      [MuEvent.lock, MuEvent.rotateDecision, MuEvent.unlock,
       MuEvent.lock, MuEvent.frameWrite, MuEvent.unlock] ∧
    underLock 0 writeSnapshotEvents = true ∧
    isMerge interleavedAppends writeSnapshotEvents writeSnapshotEvents = true ∧
    mutexOk none interleavedAppends = true := by
  refine ⟨rfl, rfl, ?_, ?_⟩ <;> decide

/-! ## Claim C9: order book materialization (src/reader.go main) -/

/-- The in-memory OrderBook of reader.go: per-side price-to-quantity maps
(Go map keyed by the float64 price), keys and values as 64-bit patterns. -/
structure OrderBook where
  bidsMap : List (Nat × Nat)
  asksMap : List (Nat × Nat)
  deriving DecidableEq, Repr

/-- Fold one side's level sequence, in order, into its map: the loop
for each l in side: book[l.Price] = l.Quantity. -/
def foldSide (levels : List Level) : List (Nat × Nat) :=
  levels.foldl (fun m l => aset l.price l.quantity m) []

/-- The materialization in reader.go main: fold bids and asks of the found
snapshot into the OrderBook maps. -/
def materialize (s : Snapshot) : OrderBook :=
  { bidsMap := foldSide s.bids, asksMap := foldSide s.asks }

/-- C9: materializing folds each side in order with last-write-wins — a
level appended after a prefix overwrites the value at its price and leaves
every other price unchanged — and in particular bid levels
[(10.0, 1.0), (10.0, 2.0)] (as IEEE-754 bit patterns) materialize to the
single-entry map sending 10.0 to 2.0. -/
theorem c9_materialize_last_write_wins :
    (∀ (ls : List Level) (l : Level) (p : Nat),
      alookup p (foldSide (ls ++ [l])) =
        if l.price = p then some l.quantity else alookup p (foldSide ls)) ∧
    (materialize
      { eventTime := 0, lastUpdateId := 0,
        bids := [{ price := 4621819117588971520, quantity := 4607182418800017408 },
                 { price := 4621819117588971520, quantity := 4611686018427387904 }],
        asks := [] }).bidsMap = [(4621819117588971520, 4611686018427387904)] := by
  constructor
  · intro ls l p
    have h : foldSide (ls ++ [l]) = aset l.price l.quantity (foldSide ls) := by
      rw [foldSide, List.foldl_append]
      rfl
    rw [h]
    by_cases hp : l.price = p
    · rw [if_pos hp, hp, alookup_aset_self]
    · rw [if_neg hp, alookup_aset_other _ _ _ _ hp]
  · decide

/-! ## Claim C10: parseLevels (src/unnamed/part_001) -/

/-- The parseLevels helper of the collector: convert the feed's
(priceString, quantityString) pairs into Level values, position by
position, via strconv.ParseFloat with the error discarded — the returned
value is stored whether or not parsing succeeded. The value function pf
abstracts the standard library: pf s is (the bit pattern of) the float64
value strconv.ParseFloat returns for s, error or not. -/
def parseLevels (pf : String → Nat) (levels : List (String × String)) : List Level :=
  levels.map (fun l => { price := pf l.1, quantity := pf l.2 })

/-- C10: parseLevels returns exactly one Level per input pair, in the input
order, each field carrying the ParseFloat value of its string with the
error ignored; under the strconv contract that a string failing to parse
yields value 0 (Go returns 0 alongside ErrSyntax for malformed input),
every malformed string is persisted as a zero field, and no input list is
ever rejected — the function is total and never drops a message. -/
theorem c10_parseLevels_length_order_zero (pf : String → Nat)
    (failsToParse : String → Prop)
    (hpf : ∀ s, failsToParse s → pf s = 0)
    (levels : List (String × String)) :
    (parseLevels pf levels).length = levels.length ∧
    (∀ i (h : i < levels.length),
      (parseLevels pf levels).get ⟨i, by simpa [parseLevels] using h⟩ =
        { price := pf (levels.get ⟨i, h⟩).1, quantity := pf (levels.get ⟨i, h⟩).2 }) ∧
    (∀ i (h : i < levels.length), failsToParse (levels.get ⟨i, h⟩).1 →
      ((parseLevels pf levels).get ⟨i, by simpa [parseLevels] using h⟩).price = 0) ∧
    (∀ i (h : i < levels.length), failsToParse (levels.get ⟨i, h⟩).2 →
      ((parseLevels pf levels).get ⟨i, by simpa [parseLevels] using h⟩).quantity = 0) := by
  have hget : ∀ i (h : i < levels.length),
      (parseLevels pf levels).get ⟨i, by simpa [parseLevels] using h⟩ =
        { price := pf (levels.get ⟨i, h⟩).1, quantity := pf (levels.get ⟨i, h⟩).2 } := by
    intro i h
    simp [parseLevels]
  refine ⟨by simp [parseLevels], hget, ?_, ?_⟩
  · intro i h hfail
    rw [hget i h]
    exact hpf _ hfail
  · intro i h hfail
    rw [hget i h]
    exact hpf _ hfail

/-- Witness for C10: the value function returning 99 for the string 1.5
and 0 otherwise, with the single malformed string x, on one input pair. -/
theorem c10_parseLevels_witness :
    (∀ s : String, s = "x" → (if s = "1.5" then (99 : Nat) else 0) = 0) ∧
    (parseLevels (fun s => if s = "1.5" then (99 : Nat) else 0) [("x", "1.5")]).length = 1 ∧
    ((parseLevels (fun s => if s = "1.5" then (99 : Nat) else 0) [("x", "1.5")]).get
        ⟨0, by decide⟩).price = 0 ∧
    ((parseLevels (fun s => if s = "1.5" then (99 : Nat) else 0) [("x", "1.5")]).get
        ⟨0, by decide⟩).quantity = 99 := by
  have hc := c10_parseLevels_length_order_zero
    (fun s => if s = "1.5" then (99 : Nat) else 0) (fun s => s = "x")
    (fun s hs => by rw [hs]; rfl) [("x", "1.5")]
  refine ⟨fun s hs => by rw [hs]; rfl, hc.1, ?_, by decide⟩
  exact hc.2.2.1 0 (by decide) (by decide)

end BinanceOrderbook
